import Mathlib

/-!
Verification of the detection pipeline of `spencersmergebot`.

The development shallowly embeds the algorithmic core of the repository:

* `field_board_reader.py` — `HexagonalBoardState` (hex-grid geometry,
  closest-cell assignment, per-cycle board population),
  `FieldBoardReader.preprocess_all_templates`,
  `FieldBoardReader.find_field_matches`,
  `FieldBoardReader.remove_overlapping_detections`,
  `FieldBoardReader.process_board_screenshot`;
* `game_icon_detector.py` — `GameIconDetector.find_matches_multiscale`,
  `GameIconDetector._remove_overlapping_matches`,
  `GameIconDetector.get_adaptive_scale_range`;
* `live_icon_overlay.py` — `LiveIconOverlay.find_matches_optimized`.

Modelling conventions:

* Python floats are modelled as exact rationals (`ℚ`); pixel coordinates as
  integers.  `int(x)` (truncation toward zero, applied only to nonnegative
  values in this code) is `pyInt`.
* The pixel-level output of `cv2.matchTemplate` is abstracted as an
  arbitrary score surface `surf : ℚ → ℕ → ℕ → ℚ` giving, per template
  scale, the correlation score at each position of the score grid; the
  score grid of a `W×H` region and a `tw×th` template has
  `(W-tw+1)·(H-th+1)` positions, as in OpenCV.  Histogram equalization,
  grayscale conversion and corner masking only change the surface values
  and are absorbed into `surf`.
* Python dicts keyed by `(row, col)` are modelled as total functions with
  default `[]` (matching `get_hexagon_troops`); `hexagon_centers` keeps its
  insertion order as a list, since `find_closest_hexagon` iterates it.
* `math.sqrt d ≤ r` for a nonnegative `d` is translated to the equivalent
  exact condition `0 ≤ r ∧ d ≤ r ^ 2`, and `sqrt d < sqrt m` to `d < m`,
  so all comparisons stay inside `ℚ`.
-/

namespace SpencersMergeBot

/-- One detection record: the `match_info` dictionaries built by
`find_field_matches` / `find_matches_multiscale` / `find_matches_optimized`.
`iconName` is the `icon_name` key (absent in `game_icon_detector` match
dicts, where it is set to `""`); the `troop_name` key of
`find_field_matches` (a pure renaming of `icon_name`) is not modelled. -/
structure TroopMatch where
  iconName : String
  x : ℤ
  y : ℤ
  width : ℕ
  height : ℕ
  centerX : ℤ
  centerY : ℤ
  confidence : ℚ
  scale : ℚ
deriving DecidableEq

/-- Python `int(q)` for the nonnegative rationals this program truncates. -/
def pyInt (q : ℚ) : ℕ := (q.num / (q.den : ℤ)).toNat

/-- `detection['width'] * detection['height']` — bounding-box area. -/
def boxArea (m : TroopMatch) : ℕ := m.width * m.height

/-- Intersection area of the two bounding boxes, `0` when the guard
`x1 < x2 and y1 < y2` of both suppression routines fails. -/
def interArea (a b : TroopMatch) : ℤ :=
  let ix1 := max a.x b.x
  let iy1 := max a.y b.y
  let ix2 := min (a.x + (a.width : ℤ)) (b.x + (b.width : ℤ))
  let iy2 := min (a.y + (a.height : ℤ)) (b.y + (b.height : ℤ))
  if ix1 < ix2 ∧ iy1 < iy2 then (ix2 - ix1) * (iy2 - iy1) else 0

/-- The overlap test of `GameIconDetector._remove_overlapping_matches`
(lines 229–245): intersection area over the smaller of the two box areas,
compared strictly against the overlap threshold. -/
def overlapsGame (thr : ℚ) (cur ex : TroopMatch) : Bool :=
  let ix1 := max cur.x ex.x
  let iy1 := max cur.y ex.y
  let ix2 := min (cur.x + (cur.width : ℤ)) (ex.x + (ex.width : ℤ))
  let iy2 := min (cur.y + (cur.height : ℤ)) (ex.y + (ex.height : ℤ))
  if ix1 < ix2 ∧ iy1 < iy2 then
    decide ((((ix2 - ix1) * (iy2 - iy1) : ℤ) : ℚ)
      / ((min (boxArea cur) (boxArea ex) : ℕ) : ℚ) > thr)
  else false

/-- The overlap test of `FieldBoardReader.remove_overlapping_detections`
(lines 688–704): intersection area over the area of the CANDIDATE
(`detection`, the later, lower-confidence match), not the smaller area. -/
def overlapsField (thr : ℚ) (cur ex : TroopMatch) : Bool :=
  let x1 := max cur.x ex.x
  let y1 := max cur.y ex.y
  let x2 := min (cur.x + (cur.width : ℤ)) (ex.x + (ex.width : ℤ))
  let y2 := min (cur.y + (cur.height : ℤ)) (ex.y + (ex.height : ℤ))
  if x1 < x2 ∧ y1 < y2 then
    decide ((((x2 - x1) * (y2 - y1) : ℤ) : ℚ) / ((boxArea cur : ℕ) : ℚ) > thr)
  else false

/-- `b.confidence ≤ a.confidence`: the sort relation realised by
`sorted(..., key=lambda x: x['confidence'], reverse=True)`. -/
def confGe (a b : TroopMatch) : Prop := b.confidence ≤ a.confidence

instance : DecidableRel confGe := fun a b => inferInstanceAs (Decidable (_ ≤ _))

instance : IsTotal TroopMatch confGe := ⟨fun a b => le_total b.confidence a.confidence⟩

instance : IsTrans TroopMatch confGe := ⟨fun _ _ _ h1 h2 => le_trans h2 h1⟩

/-- Python's stable descending sort by confidence. -/
def sortByConfidence (l : List TroopMatch) : List TroopMatch :=
  l.insertionSort confGe

/-- The greedy acceptance loop shared by both suppression routines:
`filtered = []`, then each match in sorted order is appended unless it
overlaps (according to `ov`) some already-accepted match. -/
def greedyKeep (ov : TroopMatch → TroopMatch → Bool) :
    List TroopMatch → List TroopMatch → List TroopMatch
  | acc, [] => acc
  | acc, m :: rest =>
    if acc.any (fun e => ov m e) then greedyKeep ov acc rest
    else greedyKeep ov (acc ++ [m]) rest

/-- `GameIconDetector._remove_overlapping_matches(matches, overlap_threshold)`
(default threshold `0.2`): sort by confidence descending, then greedily keep
non-overlapping matches. -/
def remove_overlapping_matches (thr : ℚ) (ms : List TroopMatch) : List TroopMatch :=
  greedyKeep (overlapsGame thr) [] (sortByConfidence ms)

/-- `FieldBoardReader.remove_overlapping_detections(detections, overlap_threshold)`
(default threshold `0.5`): identical loop, but with the candidate-area
overlap ratio. -/
def remove_overlapping_detections (thr : ℚ) (detections : List TroopMatch) : List TroopMatch :=
  greedyKeep (overlapsField thr) [] (sortByConfidence detections)

/-- All positions of the `cv2.matchTemplate` score grid for a `W×H` region
and a `tw×th` template, in the row-major order in which
`zip(*np.where(result >= thr)[::-1])` yields `(x, y)` pairs. -/
def scanPositions (W H tw th : ℕ) : List (ℕ × ℕ) :=
  (List.range (H - th + 1)).bind fun y => (List.range (W - tw + 1)).map fun x => (x, y)

/-- `cv2.minMaxLoc` maximum of a score list; the `[]` default is never
reached for templates passing the size filters. -/
def listMax : List ℚ → ℚ
  | [] => 0
  | a :: rest => rest.foldl max a

/-- The five fixed field-detection scales `self.scales` of
`FieldBoardReader` (`[0.8, 0.9, 1.0, 1.1, 1.2]`). -/
def fieldScales : List ℚ := [4/5, 9/10, 1, 11/10, 6/5]

/-- The five fixed scales `self.scales` of `LiveIconOverlay`
(`[0.22, 0.24, 0.26, 0.28, 0.30]`). -/
def liveScales : List ℚ := [11/50, 6/25, 13/50, 7/25, 3/10]

/-- The scaled-template table built for one readable template image by
`FieldBoardReader.preprocess_all_templates`: for each scale, the
`cv2.resize` output dimensions, skipping sizes below 10 pixels. -/
def preprocess_template_scales (tw th : ℕ) : List (ℚ × ℕ × ℕ) :=
  fieldScales.filterMap fun scale =>
    let nw := pyInt ((tw : ℚ) * scale)
    let nh := pyInt ((th : ℚ) * scale)
    if nw < 10 ∨ nh < 10 then none else some (scale, nw, nh)

/-- One file of the template directory: the file stem and the `cv2.imread`
result, abstracted to its pixel dimensions (`none` = unreadable). -/
structure IconFile where
  name : String
  image : Option (ℕ × ℕ)
deriving DecidableEq

/-- `FieldBoardReader.preprocess_all_templates`: `none` models a missing
`field_icons` directory (the function returns leaving the cache empty);
unreadable files are skipped. -/
def preprocess_all_templates (iconsDir : Option (List IconFile)) :
    List (String × List (ℚ × ℕ × ℕ)) :=
  match iconsDir with
  | none => []
  | some files =>
    files.filterMap fun f =>
      match f.image with
      | none => none
      | some (tw, th) => some (f.name, preprocess_template_scales tw th)

/-- `FieldBoardReader.find_field_matches(region_image, icon_name, offset_x,
offset_y)`.  `tmpl` is `self.preprocessed_templates[icon_name]` (`none` when
the icon is absent from the cache), listing `(scale, width, height)` of each
preprocessed template.  `surf scale x y` is the `cv2.matchTemplate`
(`TM_CCOEFF_NORMED`) score at grid position `(x, y)` for that scale. -/
def find_field_matches (tmpl : Option (List (ℚ × ℕ × ℕ))) (regionW regionH : ℕ)
    (threshold : ℚ) (offsetX offsetY : ℤ) (surf : ℚ → ℕ → ℕ → ℚ)
    (iconName : String) : List TroopMatch :=
  match tmpl with
  | none => []
  | some scaleTable =>
    let all := fieldScales.bind fun scale =>
      match ((scaleTable.find? fun e => e.1 = scale).map (·.2) : Option (ℕ × ℕ)) with
      | none => []
      | some (tw, th) =>
        if (tw : ℚ) > (regionW : ℚ) * (9/10) ∨ (th : ℚ) > (regionH : ℚ) * (9/10) then []
        else
          (scanPositions regionW regionH tw th).filterMap fun p =>
            let conf := surf scale p.1 p.2
            if threshold ≤ conf then
              some { iconName := iconName
                     x := (p.1 : ℤ) + offsetX
                     y := (p.2 : ℤ) + offsetY
                     width := tw
                     height := th
                     centerX := ((p.1 : ℤ) + offsetX) + (tw / 2 : ℕ)
                     centerY := ((p.2 : ℤ) + offsetY) + (th / 2 : ℕ)
                     confidence := conf
                     scale := scale }
            else none
    remove_overlapping_detections (1/2) all

/-- `np.linspace a b n` with exact rational arithmetic. -/
def linspace (a b : ℚ) (n : ℕ) : List ℚ :=
  (List.range n).map fun i => a + (b - a) * i / (n - 1)

/-- `np.unique`: ascending sort followed by deduplication (the subsequent
`np.sort` of `find_matches_multiscale` is then a no-op). -/
def npUnique (l : List ℚ) : List ℚ := (l.insertionSort (· ≤ ·)).dedup

/-- `GameIconDetector.get_adaptive_scale_range(template_image, search_region)`. -/
def get_adaptive_scale_range (tw th W H : ℕ) : ℚ × ℚ :=
  (max (1/10) (15 / (max tw th : ℕ) : ℚ),
   min 3 (min ((W : ℚ) * (3/5) / (tw : ℚ)) ((H : ℚ) * (3/5) / (th : ℚ))))

/-- Python's `max(iterable, key=lambda x: x['confidence'])`: the first
element attaining the maximal confidence. -/
def pyMaxByConf (m : TroopMatch) (l : List TroopMatch) : TroopMatch :=
  l.foldl (fun b x => if b.confidence < x.confidence then x else b) m

/-- The raw matches one scale of `find_matches_multiscale` collects:
positions of the score grid with score at or above the threshold
(`match_info` dicts of lines 192–201; `y` is shifted by the crop offset
`search_start_y`). -/
def multiscaleCollect (threshold : ℚ) (Wr Hr nw nh startY : ℕ)
    (surf : ℚ → ℕ → ℕ → ℚ) (scale : ℚ) : List TroopMatch :=
  (scanPositions Wr Hr nw nh).filterMap fun p =>
    let conf := surf scale p.1 p.2
    if threshold ≤ conf then
      some { iconName := ""
             x := (p.1 : ℤ)
             y := (p.2 : ℤ) + (startY : ℤ)
             width := nw
             height := nh
             centerX := (p.1 : ℤ) + (nw / 2 : ℕ)
             centerY := ((p.2 : ℤ) + (startY : ℤ)) + (nh / 2 : ℕ)
             confidence := conf
             scale := scale }
    else none

/-- The scale loop of `find_matches_multiscale` (lines 139–202), with the
`best_confidence` accumulator and the early-exit `break`.  Rebinding the
`scales` name inside the Python loop does not affect the running iterator,
so only the `break` (taken when `best_confidence > threshold * 1.2` once a
match exists) shortens the iteration.  The `break` fires before the current
scale's matches are collected, as in the source. -/
def multiscale_loop (threshold : ℚ) (Wr Hr tw th startY : ℕ)
    (surf : ℚ → ℕ → ℕ → ℚ) :
    List ℚ → ℚ → List TroopMatch → ℚ × List TroopMatch
  | [], best, acc => (best, acc)
  | scale :: rest, best, acc =>
    let nw := pyInt ((tw : ℚ) * scale)
    let nh := pyInt ((th : ℚ) * scale)
    if nw < 8 ∨ nh < 8 then
      multiscale_loop threshold Wr Hr tw th startY surf rest best acc
    else if (nw : ℚ) > (Wr : ℚ) * (4/5) ∨ (nh : ℚ) > (Hr : ℚ) * (4/5) then
      multiscale_loop threshold Wr Hr tw th startY surf rest best acc
    else
      let maxVal := listMax ((scanPositions Wr Hr nw nh).map fun p => surf scale p.1 p.2)
      let best2 := max best maxVal
      if threshold ≤ best2 ∧ acc ≠ [] ∧ best2 > threshold * (6/5) then (best2, acc)
      else
        let acc2 := if threshold ≤ maxVal then
            acc ++ multiscaleCollect threshold Wr Hr nw nh startY surf scale
          else acc
        multiscale_loop threshold Wr Hr tw th startY surf rest best2 acc2

/-- Height of the cropped search region `main_image[search_start_y:, :]`. -/
def search_region_height (imageH : ℕ) (searchBottomFraction : ℚ) : ℕ :=
  imageH - pyInt ((imageH : ℚ) * (1 - searchBottomFraction))

/-- `GameIconDetector.find_matches_multiscale(main_image, template_image,
scale_range, scale_steps)`: crop to the bottom fraction, derive the scale
list (adaptive range when the default `(0.1, 2.0)` is passed, always joined
with the fine scales `linspace(0.4, 1.0, 8)`), run the scale loop, suppress
overlaps at threshold `0.2`, and return the single best surviving match
together with `best_confidence`. -/
def find_matches_multiscale (threshold searchBottomFraction : ℚ)
    (imageW imageH tw th : ℕ) (scaleRange : ℚ × ℚ)
    (surf : ℚ → ℕ → ℕ → ℚ) : List TroopMatch × ℚ :=
  let startY := pyInt ((imageH : ℚ) * (1 - searchBottomFraction))
  let Wr := imageW
  let Hr := search_region_height imageH searchBottomFraction
  let range2 := if scaleRange = (1/10, 2) then get_adaptive_scale_range tw th Wr Hr
    else scaleRange
  let scales := npUnique (linspace range2.1 range2.2 15 ++ linspace (2/5) 1 8)
  let out := multiscale_loop threshold Wr Hr tw th startY surf scales 0 []
  let filtered := remove_overlapping_matches (1/5) out.2
  match filtered with
  | [] => ([], out.1)
  | m :: rest => ([pyMaxByConf m rest], out.1)

/-- `LiveIconOverlay.find_matches_optimized(region_image, icon_name,
offset_x, offset_y)`: the region is reflect-padded by 5 pixels before
matching, a lowered detection threshold collects candidates which are then
filtered by the caller's threshold and by the edge-artifact test, and the
surviving matches are suppressed at threshold `0.2`, returning the single
best.  `tmpl` is `self.preprocessed_templates[icon_name]`; `surf` is the
score surface over the PADDED region.  The per-scale candidate collection
(lines 508-563) is split out as `optimizedRawMatches`. -/
def optimizedRawMatches (tmpl : List (ℚ × ℕ × ℕ)) (regionW regionH : ℕ)
    (threshold : ℚ) (offsetX offsetY : ℤ) (surf : ℚ → ℕ → ℕ → ℚ) :
    List TroopMatch :=
  let padW := regionW + 10
  let padH := regionH + 10
  let detectionThreshold := max (1/4) (threshold - 3/20)
  liveScales.bind fun scale =>
    match ((tmpl.find? fun e => e.1 = scale).map (·.2) : Option (ℕ × ℕ)) with
    | none => []
    | some (tw, th) =>
      if (tw : ℚ) > (regionW : ℚ) * (4/5) ∨ (th : ℚ) > (regionH : ℚ) * (4/5) then []
      else
        let resultW := padW - tw + 1
        let resultH := padH - th + 1
        let maxVal := listMax ((scanPositions padW padH tw th).map fun p => surf scale p.1 p.2)
        if detectionThreshold ≤ maxVal then
          (scanPositions padW padH tw th).filterMap fun p =>
            let conf := surf scale p.1 p.2
            if detectionThreshold ≤ conf then
              if conf < threshold then none
              else if p.1 < 10 ∨ p.2 < 10 ∨ p.1 > resultW - 5 ∨ p.2 > resultH - 5 then none
              else
                some { iconName := ""
                       x := (p.1 : ℤ) - 5 + offsetX
                       y := (p.2 : ℤ) - 5 + offsetY
                       width := tw
                       height := th
                       centerX := ((p.1 : ℤ) - 5 + offsetX) + (tw / 2 : ℕ)
                       centerY := ((p.2 : ℤ) - 5 + offsetY) + (th / 2 : ℕ)
                       confidence := conf
                       scale := scale }
            else none
        else []

def find_matches_optimized (tmpl : List (ℚ × ℕ × ℕ)) (regionW regionH : ℕ)
    (threshold : ℚ) (offsetX offsetY : ℤ) (surf : ℚ → ℕ → ℕ → ℚ) :
    List TroopMatch × ℚ :=
  let padW := regionW + 10
  let padH := regionH + 10
  let all := optimizedRawMatches tmpl regionW regionH threshold offsetX offsetY surf
  let bestConfidence := liveScales.foldl (fun b scale =>
    match ((tmpl.find? fun e => e.1 = scale).map (·.2) : Option (ℕ × ℕ)) with
    | none => b
    | some (tw, th) =>
      if (tw : ℚ) > (regionW : ℚ) * (4/5) ∨ (th : ℚ) > (regionH : ℚ) * (4/5) then b
      else max b (listMax ((scanPositions padW padH tw th).map fun p => surf scale p.1 p.2))) 0
  let filtered := remove_overlapping_matches (1/5) all
  match filtered with
  | [] => ([], bestConfidence)
  | m :: rest => ([pyMaxByConf m rest], bestConfidence)

/-- The per-row Y coordinates of `calculate_hexagon_centers` (8 rows). -/
def row_y_positions : List ℤ := [538, 594, 650, 706, 763, 819, 875, 932]

/-- `HexagonalBoardState.calculate_hexagon_centers`: the `(row, col)` keys
are inserted in row-major ascending order (the iteration order of the
resulting Python dict).  The board rectangle parameters held by `self` are
not read by this method. -/
def calculate_hexagon_centers (boardLeft boardTop boardWidth boardHeight : ℤ) :
    List ((ℕ × ℕ) × ℤ × ℤ) :=
  (List.range 8).bind fun row =>
    (List.range 5).map fun col =>
      let y := row_y_positions.getD row 0
      let xStart : ℤ := if row % 2 = 0 then 1136 else 1094
      ((row, col), (xStart + (col : ℤ) * 82, y))

/-- `HexagonalBoardState`: the board rectangle, the troop dict (total
function, absent key ↦ `[]`) and the precomputed centers. -/
structure HexagonalBoardState where
  board_left : ℤ
  board_top : ℤ
  board_width : ℤ
  board_height : ℤ
  hexagon_troops : ℕ × ℕ → List TroopMatch
  hexagon_centers : List ((ℕ × ℕ) × ℤ × ℤ)

/-- `HexagonalBoardState.__init__`: stores the rectangle, starts with an
empty troop dict and computes the centers. -/
def HexagonalBoardState.init (l t w h : ℤ) : HexagonalBoardState :=
  ⟨l, t, w, h, fun _ => [], calculate_hexagon_centers l t w h⟩

/-- Squared Euclidean distance from `(x, y)` to a center. -/
def distSq (x y : ℚ) (c : ℤ × ℤ) : ℚ := (x - (c.1 : ℚ)) ^ 2 + (y - (c.2 : ℚ)) ^ 2

/-- One iteration of the `find_closest_hexagon` loop: the running
`(closest_hex, min_distance)` (`none` = initial infinity) is replaced only
on strict improvement `distance < min_distance`, so the first center
attaining the minimum wins.  Distances are tracked squared:
`sqrt d < sqrt m ↔ d < m`. -/
def closestStep (x y : ℚ) (best : Option ((ℕ × ℕ) × ℚ))
    (e : (ℕ × ℕ) × ℤ × ℤ) : Option ((ℕ × ℕ) × ℚ) :=
  let d := distSq x y e.2
  match best with
  | none => some (e.1, d)
  | some (h, m) => if d < m then some (e.1, d) else some (h, m)

/-- The min-tracking loop of `find_closest_hexagon` over the centers dict
in insertion order. -/
def closestLoop (x y : ℚ) (l : List ((ℕ × ℕ) × ℤ × ℤ)) : Option ((ℕ × ℕ) × ℚ) :=
  l.foldl (closestStep x y) none

/-- The radius acceptance test of `find_closest_hexagon`:
`min_distance <= max(board_width / cols, board_height / rows) * 1.5`
with `cols = 5`, `rows = 8`.  For the squared distance `msq ≥ 0` this is
exactly `sqrt msq ≤ r ↔ 0 ≤ r ∧ msq ≤ r ^ 2`. -/
def radiusOK (boardWidth boardHeight : ℤ) (msq : ℚ) : Bool :=
  let maxHexRadius : ℚ := max ((boardWidth : ℚ) / 5) ((boardHeight : ℚ) / 8) * (3/2)
  decide (0 ≤ maxHexRadius ∧ msq ≤ maxHexRadius ^ 2)

/-- `HexagonalBoardState.find_closest_hexagon(x, y)`. -/
def HexagonalBoardState.find_closest_hexagon (b : HexagonalBoardState) (x y : ℚ) :
    Option (ℕ × ℕ) :=
  match closestLoop x y b.hexagon_centers with
  | none => none
  | some (h, msq) => if radiusOK b.board_width b.board_height msq then some h else none

/-- `HexagonalBoardState.add_troop_to_hexagon(troop_detection)`: returns
the updated state and the cell (`None` when unassigned).  A non-`None`
`(row, col)` tuple is always truthy in Python, so assignment happens
exactly when `find_closest_hexagon` returns a cell. -/
def HexagonalBoardState.add_troop_to_hexagon (b : HexagonalBoardState)
    (m : TroopMatch) : HexagonalBoardState × Option (ℕ × ℕ) :=
  match b.find_closest_hexagon (m.centerX : ℚ) (m.centerY : ℚ) with
  | some hex =>
    ({ b with hexagon_troops :=
        Function.update b.hexagon_troops hex (b.hexagon_troops hex ++ [m]) }, some hex)
  | none => (b, none)

/-- `HexagonalBoardState.clear_board()`. -/
def HexagonalBoardState.clear_board (b : HexagonalBoardState) : HexagonalBoardState :=
  { b with hexagon_troops := fun _ => [] }

/-- The assignment loop of `process_board_screenshot` (lines 612–615):
each surviving detection is offered to the board in order.  (The loop also
annotates assigned detections with a `hexagon` key; that annotation is not
modelled.) -/
def assign_detections (b : HexagonalBoardState) (dets : List TroopMatch) :
    HexagonalBoardState :=
  dets.foldl (fun bb m => (bb.add_troop_to_hexagon m).1) b

/-- `FieldBoardReader.process_board_screenshot(screenshot_cv)`:
returns early with no detections when the `field_icons` directory is
missing or holds no files — note this happens BEFORE the board is cleared.
Otherwise it pools the per-icon `find_field_matches` results, clears the
board and assigns every detection.  `left/top/right/bottom` are
`get_board_area_pixels()`; `surfOf name` is the score surface of icon
`name` against the cropped board region; `self.hexagonal_board` is always
initialized by `__init__`, so it is modelled as always present. -/
def process_board_screenshot (iconsDir : Option (List IconFile))
    (cache : List (String × List (ℚ × ℕ × ℕ)))
    (left top right bottom : ℤ) (threshold : ℚ)
    (surfOf : String → ℚ → ℕ → ℕ → ℚ) (board : HexagonalBoardState) :
    List TroopMatch × HexagonalBoardState :=
  match iconsDir with
  | none => ([], board)
  | some files =>
    if files.isEmpty then ([], board)
    else
      let regionW := (right - left).toNat
      let regionH := (bottom - top).toNat
      let detections := files.bind fun f =>
        find_field_matches ((cache.find? fun e => e.1 = f.name).map (·.2))
          regionW regionH threshold left top (surfOf f.name) f.name
      (detections, assign_detections board.clear_board detections)

/-- The 40 grid coordinates `(row, col)` of the 8×5 board, in ascending
row-major order. -/
def gridCells : List (ℕ × ℕ) :=
  (List.range 8).bind fun r => (List.range 5).map fun c => (r, c)

/-- Strict lexicographic order on `(row, col)`. -/
def cellLexLt (a b : ℕ × ℕ) : Prop := a.1 < b.1 ∨ (a.1 = b.1 ∧ a.2 < b.2)

instance : DecidableRel cellLexLt := fun a b => by
  unfold cellLexLt; infer_instance

/-- Minimum of a list of rationals (the `[]` default is never used: the
center list is nonempty). -/
def listMinQ : List ℚ → ℚ
  | [] => 0
  | a :: rest => rest.foldl min a

/-- The specification-side assignment of claim C4, written from the spec's
words: compute the Euclidean distance from the point to every cell center,
take the minimum; if that minimum is within `1.5 × max(per-column width,
per-row height)` assign the lexicographically first `(row, col)` among the
minimum-distance cells (the first one in ascending row-major order),
otherwise leave the point unassigned.  Distances are squared and the radius
test is the exact `ℚ` rendering of `min_distance ≤ radius`. -/
def specAssignCell (w h : ℤ) (x y : ℚ) : Option (ℕ × ℕ) :=
  let centers := calculate_hexagon_centers 0 0 w h
  let dmin := listMinQ (centers.map fun e => distSq x y e.2)
  if radiusOK w h dmin then
    (centers.find? fun e => distSq x y e.2 = dmin).map (·.1)
  else none

/-- The fixed center table claimed by C10: row Y positions 538–932, X
origins 1136 (even row index) / 1094 (odd row index), 82-pixel spacing. -/
def hexCenterTable : List ((ℕ × ℕ) × ℤ × ℤ) :=
  [((0, 0), (1136, 538)), ((0, 1), (1218, 538)), ((0, 2), (1300, 538)),
   ((0, 3), (1382, 538)), ((0, 4), (1464, 538)),
   ((1, 0), (1094, 594)), ((1, 1), (1176, 594)), ((1, 2), (1258, 594)),
   ((1, 3), (1340, 594)), ((1, 4), (1422, 594)),
   ((2, 0), (1136, 650)), ((2, 1), (1218, 650)), ((2, 2), (1300, 650)),
   ((2, 3), (1382, 650)), ((2, 4), (1464, 650)),
   ((3, 0), (1094, 706)), ((3, 1), (1176, 706)), ((3, 2), (1258, 706)),
   ((3, 3), (1340, 706)), ((3, 4), (1422, 706)),
   ((4, 0), (1136, 763)), ((4, 1), (1218, 763)), ((4, 2), (1300, 763)),
   ((4, 3), (1382, 763)), ((4, 4), (1464, 763)),
   ((5, 0), (1094, 819)), ((5, 1), (1176, 819)), ((5, 2), (1258, 819)),
   ((5, 3), (1340, 819)), ((5, 4), (1422, 819)),
   ((6, 0), (1136, 875)), ((6, 1), (1218, 875)), ((6, 2), (1300, 875)),
   ((6, 3), (1382, 875)), ((6, 4), (1464, 875)),
   ((7, 0), (1094, 932)), ((7, 1), (1176, 932)), ((7, 2), (1258, 932)),
   ((7, 3), (1340, 932)), ((7, 4), (1422, 932))]

/-- Total number of troops assigned to the 40 board cells. -/
def boardTroopTotal (b : HexagonalBoardState) : ℕ :=
  (gridCells.map fun c => (b.hexagon_troops c).length).sum

/-- A detection left unassigned by the board mapper. -/
def unassignedCount (b : HexagonalBoardState) (dets : List TroopMatch) : ℕ :=
  dets.countP fun m => (b.find_closest_hexagon (m.centerX : ℚ) (m.centerY : ℚ)).isNone

/-! ### Concrete instances used by witnesses and counterexamples -/

/-- High-confidence 10×10 box at the origin. -/
def boxHi : TroopMatch := ⟨"k", 0, 0, 10, 10, 5, 5, 9/10, 1⟩

/-- Lower-confidence 30×30 box at the origin: its own area is 9× the area
of `boxHi`, so the candidate-area ratio stays small while the
smaller-area ratio is 1. -/
def boxBigLo : TroopMatch := ⟨"k", 0, 0, 30, 30, 15, 15, 4/5, 1⟩

/-- Lower-confidence 10×10 box shifted by one pixel: mutual overlap
81/100 > 1/2 with `boxHi`. -/
def boxNearLo : TroopMatch := ⟨"k", 1, 1, 10, 10, 6, 6, 3/4, 1⟩

/-- Score surface that correlates perfectly at grid position (0, 0). -/
def surfHit (_scale : ℚ) (px py : ℕ) : ℚ := if px = 0 ∧ py = 0 then 1 else 0

/-- Score surface for the optimized matcher demo: perfect correlation at
padded-grid position (10, 10). -/
def surfOpt (_scale : ℚ) (px py : ℕ) : ℚ := if px = 10 ∧ py = 10 then 1 else 0

/-- The single match `find_field_matches` produces on a 12×12 region with
a 10×10 scale-1.0 template and `surfHit`. -/
def fieldHitMatch : TroopMatch := ⟨"k", 0, 0, 10, 10, 5, 5, 1, 1⟩

/-- The single match `find_field_matches` produces on a 10×10 region with
a 9×9 template: 9 exceeds 80 % of the region width but not 90 %. -/
def wideMatch : TroopMatch := ⟨"k", 0, 0, 9, 9, 4, 4, 1, 1⟩

/-- The single match `find_matches_multiscale` produces for a 35×35
template on an 18×18 frame with `search_bottom_fraction = 1`, explicit
scale range `(2/5, 2/5)` and `surfHit` (scale 2/5 gives a 14×14 variant;
all later scales exceed 80 % of the region). -/
def multiHitMatch : TroopMatch := ⟨"", 0, 0, 14, 14, 7, 7, 1, 2/5⟩

/-- The single match `find_matches_optimized` produces on a 20×20 region
with a 16×16 scale-0.3 template and `surfOpt` (padded position (10,10)
maps back to region coordinates (5,5)). -/
def optHitMatch : TroopMatch := ⟨"", 5, 5, 16, 16, 13, 13, 1, 3/10⟩

/-- A match left over from an earlier cycle, for the staleness
counterexample. -/
def staleTroop : TroopMatch := ⟨"old", 1100, 500, 10, 10, 1136, 538, 9/10, 1⟩

/-- A board still populated from a previous cycle. -/
def staleBoard : HexagonalBoardState :=
  { HexagonalBoardState.init 1024 532 512 490 with
    hexagon_troops := fun c => if c = (0, 0) then [staleTroop] else [] }

/-! ### Properties of the greedy suppression loop -/

lemma greedyKeep_append (ov : TroopMatch → TroopMatch → Bool) :
    ∀ (l acc : List TroopMatch),
      ∃ l2, greedyKeep ov acc l = acc ++ l2 ∧ l2.Sublist l := by
  intro l
  induction l with
  | nil => intro acc; exact ⟨[], by simp [greedyKeep], List.Sublist.refl _⟩
  | cons m rest ih =>
    intro acc
    by_cases h : acc.any (fun e => ov m e) = true
    · obtain ⟨l2, he, hs⟩ := ih acc
      exact ⟨l2, by simpa [greedyKeep, h] using he, hs.cons m⟩
    · obtain ⟨l2, he, hs⟩ := ih (acc ++ [m])
      refine ⟨m :: l2, ?_, hs.cons₂ m⟩
      have h2 : acc.any (fun e => ov m e) = false := by
        simpa using h
      simp [greedyKeep, h2, he]

lemma mem_greedyKeep {ov : TroopMatch → TroopMatch → Bool}
    {l acc : List TroopMatch} {m : TroopMatch}
    (hm : m ∈ greedyKeep ov acc l) : m ∈ acc ∨ m ∈ l := by
  obtain ⟨l2, he, hs⟩ := greedyKeep_append ov l acc
  rw [he] at hm
  rcases List.mem_append.mp hm with h | h
  · exact Or.inl h
  · exact Or.inr (hs.mem h)

lemma greedyKeep_pairwise (ov : TroopMatch → TroopMatch → Bool) :
    ∀ (l acc : List TroopMatch),
      acc.Pairwise (fun a b => ov b a = false) →
      (greedyKeep ov acc l).Pairwise (fun a b => ov b a = false) := by
  intro l
  induction l with
  | nil => intro acc h; simpa [greedyKeep] using h
  | cons m rest ih =>
    intro acc hacc
    by_cases h : acc.any (fun e => ov m e) = true
    · simpa [greedyKeep, h] using ih acc hacc
    · have h2 : acc.any (fun e => ov m e) = false := by simpa using h
      have hfalse : ∀ a ∈ acc, ov m a = false := by
        intro a ha
        have := List.any_eq_false.mp h2 a ha
        simpa using this
      have hnext : (acc ++ [m]).Pairwise (fun a b => ov b a = false) := by
        rw [List.pairwise_append]
        refine ⟨hacc, by simp, ?_⟩
        intro a ha b hb
        rw [List.mem_singleton.mp hb]
        exact hfalse a ha
      simpa [greedyKeep, h2] using ih (acc ++ [m]) hnext

lemma greedyKeep_eq_append (ov : TroopMatch → TroopMatch → Bool) :
    ∀ (l acc : List TroopMatch),
      (∀ m ∈ l, ∀ a ∈ acc, ov m a = false) →
      l.Pairwise (fun a b => ov b a = false) →
      greedyKeep ov acc l = acc ++ l := by
  intro l
  induction l with
  | nil => intro acc _ _; simp [greedyKeep]
  | cons m rest ih =>
    intro acc hcross hpw
    have hany : acc.any (fun e => ov m e) = false := by
      rw [List.any_eq_false]
      intro a ha
      simp [hcross m (List.mem_cons_self m rest) a ha]
    have hcross2 : ∀ m2 ∈ rest, ∀ a ∈ acc ++ [m], ov m2 a = false := by
      intro m2 hm2 a ha
      rcases List.mem_append.mp ha with h | h
      · exact hcross m2 (List.mem_cons_of_mem m hm2) a h
      · rw [List.mem_singleton.mp h]
        exact List.rel_of_pairwise_cons hpw hm2
    have := ih (acc ++ [m]) hcross2 hpw.of_cons
    simp only [greedyKeep, hany]
    simpa [List.append_assoc] using this

lemma greedyKeep_pair (ov : TroopMatch → TroopMatch → Bool) (a b : TroopMatch)
    (h : ov b a = true) : greedyKeep ov [] [a, b] = [a] := by
  simp [greedyKeep, h]

lemma greedyKeep_sorted (ov : TroopMatch → TroopMatch → Bool) (l : List TroopMatch) :
    (greedyKeep ov [] (sortByConfidence l)).Sorted confGe := by
  obtain ⟨l2, he, hs⟩ := greedyKeep_append ov (sortByConfidence l) []
  rw [he]
  simpa using List.Pairwise.sublist hs (List.sorted_insertionSort confGe l)

lemma greedyKeep_sort_idem (ov : TroopMatch → TroopMatch → Bool) (l : List TroopMatch) :
    greedyKeep ov [] (sortByConfidence (greedyKeep ov [] (sortByConfidence l)))
      = greedyKeep ov [] (sortByConfidence l) := by
  have hsorted := greedyKeep_sorted ov l
  have hfix : sortByConfidence (greedyKeep ov [] (sortByConfidence l))
      = greedyKeep ov [] (sortByConfidence l) := hsorted.insertionSort_eq
  rw [hfix]
  have hpw := greedyKeep_pairwise ov (sortByConfidence l) [] List.Pairwise.nil
  have := greedyKeep_eq_append ov (greedyKeep ov [] (sortByConfidence l)) []
    (by intro m _ a ha; simp at ha) hpw
  simpa using this

/-! ### Membership facts for the matchers -/

lemma mem_of_mem_suppress {ov : TroopMatch → TroopMatch → Bool}
    {l : List TroopMatch} {m : TroopMatch}
    (hm : m ∈ greedyKeep ov [] (sortByConfidence l)) : m ∈ l := by
  rcases mem_greedyKeep hm with h | h
  · simp at h
  · simpa [sortByConfidence] using h

lemma find_field_matches_spec {tmpl : Option (List (ℚ × ℕ × ℕ))} {W H : ℕ}
    {thr : ℚ} {offX offY : ℤ} {surf : ℚ → ℕ → ℕ → ℚ} {name : String}
    {m : TroopMatch} (hm : m ∈ find_field_matches tmpl W H thr offX offY surf name) :
    thr ≤ m.confidence ∧ (m.width : ℚ) ≤ (W : ℚ) * (9/10) ∧
      (m.height : ℚ) ≤ (H : ℚ) * (9/10) := by
  cases tmpl with
  | none => simp [find_field_matches] at hm
  | some scaleTable =>
    have hall : m ∈ fieldScales.bind fun scale =>
        match ((scaleTable.find? fun e => e.1 = scale).map (·.2) : Option (ℕ × ℕ)) with
        | none => []
        | some (tw, th) =>
          if (tw : ℚ) > (W : ℚ) * (9/10) ∨ (th : ℚ) > (H : ℚ) * (9/10) then []
          else
            (scanPositions W H tw th).filterMap fun p =>
              let conf := surf scale p.1 p.2
              if thr ≤ conf then
                some { iconName := name
                       x := (p.1 : ℤ) + offX
                       y := (p.2 : ℤ) + offY
                       width := tw
                       height := th
                       centerX := ((p.1 : ℤ) + offX) + (tw / 2 : ℕ)
                       centerY := ((p.2 : ℤ) + offY) + (th / 2 : ℕ)
                       confidence := conf
                       scale := scale }
              else none :=
      mem_of_mem_suppress hm
    rw [List.mem_bind] at hall
    obtain ⟨scale, _, hmem⟩ := hall
    rcases hfind : ((scaleTable.find? fun e => e.1 = scale).map (·.2) : Option (ℕ × ℕ)) with
      _ | ⟨tw, th⟩
    · rw [hfind] at hmem
      simp only [] at hmem
      simp at hmem
    · rw [hfind] at hmem
      simp only [] at hmem
      by_cases hbig : (tw : ℚ) > (W : ℚ) * (9/10) ∨ (th : ℚ) > (H : ℚ) * (9/10)
      · rw [if_pos hbig] at hmem
        simp at hmem
      · rw [if_neg hbig] at hmem
        push_neg at hbig
        rw [List.mem_filterMap] at hmem
        obtain ⟨p, _, hsome⟩ := hmem
        by_cases hconf : thr ≤ surf scale p.1 p.2
        · simp only [if_pos hconf] at hsome
          cases hsome
          exact ⟨hconf, hbig.1, hbig.2⟩
        · simp only [if_neg hconf] at hsome
          cases hsome

lemma mem_multiscaleCollect {thr : ℚ} {Wr Hr nw nh startY : ℕ}
    {surf : ℚ → ℕ → ℕ → ℚ} {scale : ℚ} {m : TroopMatch}
    (hm : m ∈ multiscaleCollect thr Wr Hr nw nh startY surf scale) :
    thr ≤ m.confidence ∧ m.width = nw ∧ m.height = nh := by
  unfold multiscaleCollect at hm
  rw [List.mem_filterMap] at hm
  obtain ⟨p, _, hsome⟩ := hm
  by_cases hconf : thr ≤ surf scale p.1 p.2
  · simp only [if_pos hconf] at hsome
    cases hsome
    exact ⟨hconf, rfl, rfl⟩
  · simp only [if_neg hconf] at hsome
    cases hsome

lemma multiscale_loop_mem {thr : ℚ} {Wr Hr tw th startY : ℕ}
    {surf : ℚ → ℕ → ℕ → ℚ} :
    ∀ (scales : List ℚ) (best : ℚ) (acc : List TroopMatch) (m : TroopMatch),
      m ∈ (multiscale_loop thr Wr Hr tw th startY surf scales best acc).2 →
      m ∈ acc ∨ (thr ≤ m.confidence ∧ (m.width : ℚ) ≤ (Wr : ℚ) * (4/5) ∧
        (m.height : ℚ) ≤ (Hr : ℚ) * (4/5)) := by
  intro scales
  induction scales with
  | nil => intro best acc m hm; exact Or.inl hm
  | cons scale rest ih =>
    intro best acc m hm
    rw [multiscale_loop] at hm
    by_cases hsmall : pyInt ((tw : ℚ) * scale) < 8 ∨ pyInt ((th : ℚ) * scale) < 8
    · rw [if_pos hsmall] at hm
      exact ih best acc m hm
    · rw [if_neg hsmall] at hm
      by_cases hbig : (pyInt ((tw : ℚ) * scale) : ℚ) > (Wr : ℚ) * (4/5) ∨
          (pyInt ((th : ℚ) * scale) : ℚ) > (Hr : ℚ) * (4/5)
      · rw [if_pos hbig] at hm
        exact ih best acc m hm
      · rw [if_neg hbig] at hm
        push_neg at hbig
        set maxVal := listMax ((scanPositions Wr Hr (pyInt ((tw : ℚ) * scale))
          (pyInt ((th : ℚ) * scale))).map fun p => surf scale p.1 p.2) with hmv
        by_cases hstop : thr ≤ max best maxVal ∧ acc ≠ [] ∧ max best maxVal > thr * (6/5)
        · rw [if_pos hstop] at hm
          exact Or.inl hm
        · rw [if_neg hstop] at hm
          by_cases hcol : thr ≤ maxVal
          · rw [if_pos hcol] at hm
            rcases ih _ _ m hm with hacc | hok
            · rcases List.mem_append.mp hacc with h | h
              · exact Or.inl h
              · obtain ⟨hc, hw, hh⟩ := mem_multiscaleCollect h
                exact Or.inr ⟨hc, by rw [hw]; exact hbig.1, by rw [hh]; exact hbig.2⟩
            · exact Or.inr hok
          · rw [if_neg hcol] at hm
            exact ih _ _ m hm

lemma pyMaxByConf_mem : ∀ (l : List TroopMatch) (m : TroopMatch),
    pyMaxByConf m l ∈ m :: l := by
  intro l
  induction l with
  | nil => intro m; simp [pyMaxByConf]
  | cons x rest ih =>
    intro m
    unfold pyMaxByConf
    rw [List.foldl_cons]
    by_cases h : m.confidence < x.confidence
    · rw [if_pos h]
      have := ih x
      unfold pyMaxByConf at this
      rcases List.mem_cons.mp this with h2 | h2
    -- the fold result is x itself or lies in rest
      · rw [h2]; simp
      · simp [h2]
    · rw [if_neg h]
      have := ih m
      unfold pyMaxByConf at this
      rcases List.mem_cons.mp this with h2 | h2
      · rw [h2]; simp
      · simp [h2]

lemma find_matches_multiscale_spec {thr frac : ℚ} {imageW imageH tw th : ℕ}
    {sr : ℚ × ℚ} {surf : ℚ → ℕ → ℕ → ℚ} {m : TroopMatch}
    (hm : m ∈ (find_matches_multiscale thr frac imageW imageH tw th sr surf).1) :
    thr ≤ m.confidence ∧ (m.width : ℚ) ≤ (imageW : ℚ) * (4/5) ∧
      (m.height : ℚ) ≤ ((search_region_height imageH frac : ℕ) : ℚ) * (4/5) := by
  unfold find_matches_multiscale at hm
  simp only at hm
  rcases hf : remove_overlapping_matches (1/5)
      (multiscale_loop thr imageW (search_region_height imageH frac) tw th
        (pyInt ((imageH : ℚ) * (1 - frac))) surf
        (npUnique (linspace (if sr = (1/10, 2) then
            get_adaptive_scale_range tw th imageW (search_region_height imageH frac)
          else sr).1 (if sr = (1/10, 2) then
            get_adaptive_scale_range tw th imageW (search_region_height imageH frac)
          else sr).2 15 ++ linspace (2/5) 1 8)) 0 []).2 with _ | ⟨m0, rest⟩
  · rw [hf] at hm
    simp at hm
  · rw [hf] at hm
    rcases List.mem_singleton.mp hm with rfl
    have hmem : pyMaxByConf m0 rest ∈ m0 :: rest := pyMaxByConf_mem rest m0
    rw [← hf] at hmem
    have hloop := mem_of_mem_suppress hmem
    rcases multiscale_loop_mem _ _ _ _ hloop with h | h
    · simp at h
    · exact h

lemma optimizedRawMatches_spec {tmpl : List (ℚ × ℕ × ℕ)} {W H : ℕ} {thr : ℚ}
    {offX offY : ℤ} {surf : ℚ → ℕ → ℕ → ℚ} {m : TroopMatch}
    (hm : m ∈ optimizedRawMatches tmpl W H thr offX offY surf) :
    thr ≤ m.confidence ∧ (m.width : ℚ) ≤ (W : ℚ) * (4/5) ∧
      (m.height : ℚ) ≤ (H : ℚ) * (4/5) := by
  unfold optimizedRawMatches at hm
  simp only [] at hm
  rw [List.mem_bind] at hm
  obtain ⟨scale, _, hmem⟩ := hm
  rcases hfind : ((tmpl.find? fun e => e.1 = scale).map (·.2) : Option (ℕ × ℕ)) with
    _ | ⟨tw, th⟩
  · rw [hfind] at hmem
    simp at hmem
  · rw [hfind] at hmem
    simp only [] at hmem
    by_cases hbig : (tw : ℚ) > (W : ℚ) * (4/5) ∨ (th : ℚ) > (H : ℚ) * (4/5)
    · rw [if_pos hbig] at hmem
      simp at hmem
    · rw [if_neg hbig] at hmem
      push_neg at hbig
      by_cases hmax : (max (1/4) (thr - 3/20) : ℚ)
          ≤ listMax ((scanPositions (W + 10) (H + 10) tw th).map fun p => surf scale p.1 p.2)
      · rw [if_pos hmax] at hmem
        rw [List.mem_filterMap] at hmem
        obtain ⟨p, _, hsome⟩ := hmem
        by_cases hdet : (max (1/4) (thr - 3/20) : ℚ) ≤ surf scale p.1 p.2
        · simp only [if_pos hdet] at hsome
          by_cases hlo : surf scale p.1 p.2 < thr
          · simp only [if_pos hlo] at hsome
            exact Option.noConfusion hsome
          · simp only [if_neg hlo] at hsome
            by_cases hedge : p.1 < 10 ∨ p.2 < 10 ∨ p.1 > (W + 10) - tw + 1 - 5 ∨
                p.2 > (H + 10) - th + 1 - 5
            · simp only [if_pos hedge] at hsome
              exact Option.noConfusion hsome
            · simp only [if_neg hedge] at hsome
              cases hsome
              exact ⟨not_lt.mp hlo, hbig.1, hbig.2⟩
        · simp only [if_neg hdet] at hsome
          exact Option.noConfusion hsome
      · rw [if_neg hmax] at hmem
        simp at hmem

lemma find_matches_optimized_spec {tmpl : List (ℚ × ℕ × ℕ)} {W H : ℕ} {thr : ℚ}
    {offX offY : ℤ} {surf : ℚ → ℕ → ℕ → ℚ} {m : TroopMatch}
    (hm : m ∈ (find_matches_optimized tmpl W H thr offX offY surf).1) :
    thr ≤ m.confidence ∧ (m.width : ℚ) ≤ (W : ℚ) * (4/5) ∧
      (m.height : ℚ) ≤ (H : ℚ) * (4/5) := by
  unfold find_matches_optimized at hm
  simp only [] at hm
  rcases hf : remove_overlapping_matches (1/5)
      (optimizedRawMatches tmpl W H thr offX offY surf) with _ | ⟨m0, rest⟩
  · rw [hf] at hm
    simp at hm
  · rw [hf] at hm
    rcases List.mem_singleton.mp hm with rfl
    have hmem : pyMaxByConf m0 rest ∈ m0 :: rest := pyMaxByConf_mem rest m0
    rw [← hf] at hmem
    exact optimizedRawMatches_spec (mem_of_mem_suppress hmem)

/-! ### Overlap-ratio facts -/

lemma interArea_comm (a b : TroopMatch) : interArea a b = interArea b a := by
  unfold interArea
  rw [max_comm a.x b.x, max_comm a.y b.y,
    min_comm (a.x + (a.width : ℤ)) (b.x + (b.width : ℤ)),
    min_comm (a.y + (a.height : ℤ)) (b.y + (b.height : ℤ))]

lemma interArea_guard {a b : TroopMatch} (h : interArea a b ≠ 0) :
    max a.x b.x < min (a.x + (a.width : ℤ)) (b.x + (b.width : ℤ)) ∧
      max a.y b.y < min (a.y + (a.height : ℤ)) (b.y + (b.height : ℤ)) := by
  by_contra hg
  apply h
  simp only [interArea, if_neg hg]

lemma interArea_pos {a b : TroopMatch}
    (hg : max a.x b.x < min (a.x + (a.width : ℤ)) (b.x + (b.width : ℤ)) ∧
      max a.y b.y < min (a.y + (a.height : ℤ)) (b.y + (b.height : ℤ))) :
    0 < interArea a b := by
  simp only [interArea, if_pos hg]
  exact mul_pos (by omega) (by omega)

lemma interArea_le_left (a b : TroopMatch) : interArea a b ≤ (boxArea a : ℤ) := by
  simp only [interArea, boxArea]
  split
  · rename_i hg
    have hx : min (a.x + (a.width : ℤ)) (b.x + (b.width : ℤ)) - max a.x b.x
        ≤ (a.width : ℤ) := by
      have h1 : min (a.x + (a.width : ℤ)) (b.x + (b.width : ℤ)) ≤ a.x + (a.width : ℤ) :=
        min_le_left _ _
      have h2 : a.x ≤ max a.x b.x := le_max_left _ _
      omega
    have hy : min (a.y + (a.height : ℤ)) (b.y + (b.height : ℤ)) - max a.y b.y
        ≤ (a.height : ℤ) := by
      have h1 : min (a.y + (a.height : ℤ)) (b.y + (b.height : ℤ)) ≤ a.y + (a.height : ℤ) :=
        min_le_left _ _
      have h2 : a.y ≤ max a.y b.y := le_max_left _ _
      omega
    have hx0 : 0 ≤ min (a.x + (a.width : ℤ)) (b.x + (b.width : ℤ)) - max a.x b.x := by
      omega
    have hy0 : 0 ≤ min (a.y + (a.height : ℤ)) (b.y + (b.height : ℤ)) - max a.y b.y := by
      omega
    calc (min (a.x + (a.width : ℤ)) (b.x + (b.width : ℤ)) - max a.x b.x) *
          (min (a.y + (a.height : ℤ)) (b.y + (b.height : ℤ)) - max a.y b.y)
        ≤ (a.width : ℤ) * (min (a.y + (a.height : ℤ)) (b.y + (b.height : ℤ)) - max a.y b.y) :=
          mul_le_mul_of_nonneg_right hx hy0
      _ ≤ (a.width : ℤ) * (a.height : ℤ) := by
          exact mul_le_mul_of_nonneg_left hy (by positivity)
      _ = ((a.width * a.height : ℕ) : ℤ) := by push_cast; ring
  · positivity

lemma interArea_le_right (a b : TroopMatch) : interArea a b ≤ (boxArea b : ℤ) := by
  rw [interArea_comm]
  exact interArea_le_left b a

/-- When the game-detector overlap test rejects nothing, the
smaller-area overlap ratio is bounded by the threshold. -/
lemma overlapsGame_false_ratio {thr : ℚ} {cur ex : TroopMatch}
    (h : overlapsGame thr cur ex = false) (hne : interArea cur ex ≠ 0) :
    ((interArea cur ex : ℤ) : ℚ) / ((min (boxArea cur) (boxArea ex) : ℕ) : ℚ) ≤ thr := by
  have hg := interArea_guard hne
  simp only [overlapsGame, if_pos hg] at h
  have h2 := of_decide_eq_false h
  have h3 : ¬ (((interArea cur ex : ℤ) : ℚ)
      / ((min (boxArea cur) (boxArea ex) : ℕ) : ℚ) > thr) := by
    simpa only [interArea, if_pos hg] using h2
  exact le_of_not_lt h3

/-- When the field overlap test rejects nothing, the candidate-area
overlap ratio is bounded by the threshold. -/
lemma overlapsField_false_ratio {thr : ℚ} {cur ex : TroopMatch}
    (h : overlapsField thr cur ex = false) (hne : interArea cur ex ≠ 0) :
    ((interArea cur ex : ℤ) : ℚ) / ((boxArea cur : ℕ) : ℚ) ≤ thr := by
  have hg := interArea_guard hne
  simp only [overlapsField, if_pos hg] at h
  have h2 := of_decide_eq_false h
  have h3 : ¬ (((interArea cur ex : ℤ) : ℚ) / ((boxArea cur : ℕ) : ℚ) > thr) := by
    simpa only [interArea, if_pos hg] using h2
  exact le_of_not_lt h3

/-- A pair overlapping by more than half of both areas trips the game
test at its configured threshold 0.2. -/
lemma overlapsGame_true_of_mutual {cur ex : TroopMatch}
    (hc : ((boxArea cur : ℕ) : ℚ) < 2 * ((interArea cur ex : ℤ) : ℚ))
    (he : ((boxArea ex : ℕ) : ℚ) < 2 * ((interArea cur ex : ℤ) : ℚ)) :
    overlapsGame (1/5) cur ex = true := by
  have hpos : (0 : ℚ) < ((interArea cur ex : ℤ) : ℚ) := by
    have h0 : (0 : ℚ) ≤ ((boxArea cur : ℕ) : ℚ) := by positivity
    linarith
  have hne : interArea cur ex ≠ 0 := by
    intro h0
    rw [h0] at hpos
    simp at hpos
  have hg := interArea_guard hne
  simp only [overlapsGame, if_pos hg, decide_eq_true_iff]
  have harea : ((interArea cur ex : ℤ) : ℚ)
      ≤ ((min (boxArea cur) (boxArea ex) : ℕ) : ℚ) := by
    rcases min_cases (boxArea cur) (boxArea ex) with ⟨hmin, _⟩ | ⟨hmin, _⟩ <;> rw [hmin]
    · exact_mod_cast interArea_le_left cur ex
    · exact_mod_cast interArea_le_right cur ex
  have hminpos : (0 : ℚ) < ((min (boxArea cur) (boxArea ex) : ℕ) : ℚ) := lt_of_lt_of_le hpos harea
  have hmin2 : ((min (boxArea cur) (boxArea ex) : ℕ) : ℚ)
      < 2 * ((interArea cur ex : ℤ) : ℚ) := by
    rcases min_cases (boxArea cur) (boxArea ex) with ⟨hmin, _⟩ | ⟨hmin, _⟩ <;> rw [hmin]
    · exact hc
    · exact he
  have hratio : (1/5 : ℚ) < ((interArea cur ex : ℤ) : ℚ)
      / ((min (boxArea cur) (boxArea ex) : ℕ) : ℚ) := by
    rw [lt_div_iff hminpos]
    nlinarith
  have hgoal : ((interArea cur ex : ℤ) : ℚ)
      / ((min (boxArea cur) (boxArea ex) : ℕ) : ℚ) > 1/5 := hratio
  simpa only [interArea, if_pos hg] using hgoal

/-- A pair overlapping by more than half of the candidate's area trips
the field test at its configured threshold 0.5. -/
lemma overlapsField_true_of_mutual {cur ex : TroopMatch}
    (hc : ((boxArea cur : ℕ) : ℚ) < 2 * ((interArea cur ex : ℤ) : ℚ)) :
    overlapsField (1/2) cur ex = true := by
  have hpos : (0 : ℚ) < ((interArea cur ex : ℤ) : ℚ) := by
    have h0 : (0 : ℚ) ≤ ((boxArea cur : ℕ) : ℚ) := by positivity
    linarith
  have hne : interArea cur ex ≠ 0 := by
    intro h0
    rw [h0] at hpos
    simp at hpos
  have hg := interArea_guard hne
  simp only [overlapsField, if_pos hg, decide_eq_true_iff]
  have hapos : (0 : ℚ) < ((boxArea cur : ℕ) : ℚ) := by
    have := interArea_le_left cur ex
    have h2 : ((interArea cur ex : ℤ) : ℚ) ≤ ((boxArea cur : ℕ) : ℚ) := by exact_mod_cast this
    linarith
  have hratio : (1/2 : ℚ) < ((interArea cur ex : ℤ) : ℚ) / ((boxArea cur : ℕ) : ℚ) := by
    rw [lt_div_iff hapos]
    nlinarith
  have hgoal : ((interArea cur ex : ℤ) : ℚ) / ((boxArea cur : ℕ) : ℚ) > 1/2 := hratio
  simpa only [interArea, if_pos hg] using hgoal

/-! ### The closest-hexagon loop is a first-argmin search -/

lemma foldl_min_le_init : ∀ (l : List ℚ) (a : ℚ), l.foldl min a ≤ a := by
  intro l
  induction l with
  | nil => intro a; exact le_refl a
  | cons b rest ih =>
    intro a
    calc (b :: rest).foldl min a = rest.foldl min (min a b) := by rw [List.foldl_cons]
      _ ≤ min a b := ih (min a b)
      _ ≤ a := min_le_left a b

lemma closestFold_char (x y : ℚ) :
    ∀ (l : List ((ℕ × ℕ) × ℤ × ℤ)) (h0 : ℕ × ℕ) (m0 : ℚ),
      ((l.map fun e => distSq x y e.2).foldl min m0 = m0 →
        l.foldl (closestStep x y) (some (h0, m0)) = some (h0, m0)) ∧
      ((l.map fun e => distSq x y e.2).foldl min m0 < m0 →
        ∃ e0, l.find? (fun e => distSq x y e.2 =
            (l.map fun e => distSq x y e.2).foldl min m0) = some e0 ∧
          l.foldl (closestStep x y) (some (h0, m0))
            = some (e0.1, (l.map fun e => distSq x y e.2).foldl min m0)) := by
  intro l
  induction l with
  | nil =>
    intro h0 m0
    refine ⟨fun _ => rfl, fun h => absurd h (by simp)⟩
  | cons e rest ih =>
    intro h0 m0
    have hmap : ((e :: rest).map fun e => distSq x y e.2)
        = distSq x y e.2 :: (rest.map fun e => distSq x y e.2) := rfl
    constructor
    · intro hmin
      rw [hmap, List.foldl_cons] at hmin
      have hle : (rest.map fun e => distSq x y e.2).foldl min (min m0 (distSq x y e.2))
          ≤ min m0 (distSq x y e.2) := foldl_min_le_init _ _
      have hminle : min m0 (distSq x y e.2) ≤ m0 := min_le_left _ _
      have heq : min m0 (distSq x y e.2) = m0 := le_antisymm hminle (hmin.symm.le.trans hle)
      have hm0le : m0 ≤ distSq x y e.2 := min_eq_left_iff.mp heq
      have hstep : closestStep x y (some (h0, m0)) e = some (h0, m0) := by
        show (if distSq x y e.2 < m0 then some (e.1, distSq x y e.2)
          else some (h0, m0)) = some (h0, m0)
        rw [if_neg (not_lt.mpr hm0le)]
      rw [List.foldl_cons, hstep]
      exact (ih h0 m0).1 (by rw [heq] at hmin; exact hmin)
    · intro hmin
      have hM : ((e :: rest).map fun e2 => distSq x y e2.2).foldl min m0
          = (rest.map fun e2 => distSq x y e2.2).foldl min (min m0 (distSq x y e.2)) := by
        rw [hmap, List.foldl_cons]
      by_cases hd : distSq x y e.2 < m0
      · have hminmd : min m0 (distSq x y e.2) = distSq x y e.2 := min_eq_right (le_of_lt hd)
        rw [hM, hminmd]
        have hstep : closestStep x y (some (h0, m0)) e = some (e.1, distSq x y e.2) := by
          show (if distSq x y e.2 < m0 then some (e.1, distSq x y e.2)
            else some (h0, m0)) = some (e.1, distSq x y e.2)
          rw [if_pos hd]
        have hMle : (rest.map fun e2 => distSq x y e2.2).foldl min (distSq x y e.2)
            ≤ distSq x y e.2 := foldl_min_le_init _ _
        rcases eq_or_lt_of_le hMle with hMeq | hMlt
        · -- the head is the first argmin
          refine ⟨e, ?_, ?_⟩
          · apply List.find?_cons_of_pos
            exact decide_eq_true hMeq.symm
          · rw [List.foldl_cons, hstep, (ih e.1 (distSq x y e.2)).1 hMeq, hMeq]
        · -- the argmin lies in the tail
          obtain ⟨e0, hfind, hfold⟩ := (ih e.1 (distSq x y e.2)).2 hMlt
          refine ⟨e0, ?_, ?_⟩
          · rw [List.find?_cons_of_neg]
            · exact hfind
            · exact fun hc => ne_of_gt hMlt (of_decide_eq_true hc)
          · rw [List.foldl_cons, hstep]
            exact hfold
      · have hm0le : m0 ≤ distSq x y e.2 := not_lt.mp hd
        have hminmd : min m0 (distSq x y e.2) = m0 := min_eq_left hm0le
        rw [hM, hminmd] at hmin ⊢
        obtain ⟨e0, hfind, hfold⟩ := (ih h0 m0).2 hmin
        have hstep : closestStep x y (some (h0, m0)) e = some (h0, m0) := by
          show (if distSq x y e.2 < m0 then some (e.1, distSq x y e.2)
            else some (h0, m0)) = some (h0, m0)
          rw [if_neg hd]
        refine ⟨e0, ?_, ?_⟩
        · rw [List.find?_cons_of_neg]
          · exact hfind
          · exact fun hc => ne_of_gt (lt_of_lt_of_le hmin hm0le) (of_decide_eq_true hc)
        · rw [List.foldl_cons, hstep]
          exact hfold

/-- `calculate_hexagon_centers` reads none of the board-rectangle fields:
its output is the fixed table. -/
lemma centers_eq (a b c d : ℤ) : calculate_hexagon_centers a b c d = hexCenterTable := rfl

/-- The `find_closest_hexagon` pipeline over a nonempty center list agrees
with the specification-style minimum-distance / first-match formulation. -/
lemma closest_vs_spec (w h : ℤ) (x y : ℚ) :
    ∀ (l : List ((ℕ × ℕ) × ℤ × ℤ)), l ≠ [] →
      (match closestLoop x y l with
        | none => none
        | some p => if radiusOK w h p.2 then some p.1 else none)
      = (if radiusOK w h (listMinQ (l.map fun e2 => distSq x y e2.2)) then
          (l.find? fun e2 => distSq x y e2.2 =
            listMinQ (l.map fun e2 => distSq x y e2.2)).map (·.1)
        else none) := by
  intro l hl
  obtain ⟨e, rest, rfl⟩ : ∃ e rest, l = e :: rest := by
    cases l with
    | nil => exact absurd rfl hl
    | cons a b => exact ⟨a, b, rfl⟩
  have hlm : listMinQ ((e :: rest).map fun e2 => distSq x y e2.2)
      = (rest.map fun e2 => distSq x y e2.2).foldl min (distSq x y e.2) := by
    show listMinQ (distSq x y e.2 :: rest.map fun e2 => distSq x y e2.2)
      = (rest.map fun e2 => distSq x y e2.2).foldl min (distSq x y e.2)
    rw [listMinQ]
  rw [hlm]
  have hloop : closestLoop x y (e :: rest)
      = rest.foldl (closestStep x y) (some (e.1, distSq x y e.2)) := by
    show (e :: rest).foldl (closestStep x y) none
      = rest.foldl (closestStep x y) (some (e.1, distSq x y e.2))
    rw [List.foldl_cons]
    rfl
  rw [hloop]
  have hMle : (rest.map fun e2 => distSq x y e2.2).foldl min (distSq x y e.2)
      ≤ distSq x y e.2 := foldl_min_le_init _ _
  rcases eq_or_lt_of_le hMle with hMeq | hMlt
  · rw [(closestFold_char x y rest e.1 (distSq x y e.2)).1 hMeq]
    have hfind : ((e :: rest).find? fun e2 => distSq x y e2.2 =
        (rest.map fun e2 => distSq x y e2.2).foldl min (distSq x y e.2)) = some e :=
      List.find?_cons_of_pos _ (decide_eq_true hMeq.symm)
    rw [hfind, hMeq]
    rfl
  · obtain ⟨e0, hfind, hfold⟩ := (closestFold_char x y rest e.1 (distSq x y e.2)).2 hMlt
    rw [hfold]
    have hfind2 : ((e :: rest).find? fun e2 => distSq x y e2.2 =
        (rest.map fun e2 => distSq x y e2.2).foldl min (distSq x y e.2)) = some e0 := by
      rw [List.find?_cons_of_neg]
      · exact hfind
      · exact fun hc => ne_of_gt hMlt (of_decide_eq_true hc)
    rw [hfind2]
    rfl

/-! ### Board-population lemmas -/

lemma closestLoop_key {x y : ℚ} {l : List ((ℕ × ℕ) × ℤ × ℤ)} {p : (ℕ × ℕ) × ℚ}
    (h : closestLoop x y l = some p) : p.1 ∈ l.map Prod.fst := by
  cases l with
  | nil => exact Option.noConfusion h
  | cons e rest =>
    have hloop : closestLoop x y (e :: rest)
        = rest.foldl (closestStep x y) (some (e.1, distSq x y e.2)) := by
      show (e :: rest).foldl (closestStep x y) none
        = rest.foldl (closestStep x y) (some (e.1, distSq x y e.2))
      rw [List.foldl_cons]
      rfl
    rw [hloop] at h
    have hMle : (rest.map fun e2 => distSq x y e2.2).foldl min (distSq x y e.2)
        ≤ distSq x y e.2 := foldl_min_le_init _ _
    rcases eq_or_lt_of_le hMle with hMeq | hMlt
    · rw [(closestFold_char x y rest e.1 (distSq x y e.2)).1 hMeq] at h
      cases h
      simp
    · obtain ⟨e0, hfind, hfold⟩ := (closestFold_char x y rest e.1 (distSq x y e.2)).2 hMlt
      rw [hfold] at h
      cases h
      have : e0 ∈ rest := List.mem_of_find?_eq_some hfind
      simp only [List.map_cons, List.mem_cons]
      exact Or.inr (List.mem_map_of_mem Prod.fst this)

lemma find_closest_init_mem {lft tp w h : ℤ} {x y : ℚ} {c : ℕ × ℕ}
    (hc : (HexagonalBoardState.init lft tp w h).find_closest_hexagon x y = some c) :
    c ∈ gridCells := by
  unfold HexagonalBoardState.find_closest_hexagon at hc
  rcases hcl : closestLoop x y (HexagonalBoardState.init lft tp w h).hexagon_centers with
    _ | ⟨hx, msq⟩
  · rw [hcl] at hc
    exact Option.noConfusion hc
  · rw [hcl] at hc
    simp only [] at hc
    have hkey := closestLoop_key hcl
    by_cases hr : radiusOK (HexagonalBoardState.init lft tp w h).board_width
        (HexagonalBoardState.init lft tp w h).board_height msq = true
    · rw [if_pos hr] at hc
      cases hc
      have hkeys : ((HexagonalBoardState.init lft tp w h).hexagon_centers.map Prod.fst)
          = gridCells := by
        show (hexCenterTable.map Prod.fst) = gridCells
        decide
      rw [hkeys] at hkey
      exact hkey
    · rw [if_neg hr] at hc
      exact Option.noConfusion hc

lemma sum_length_update (f : ℕ × ℕ → List TroopMatch) (k : ℕ × ℕ) (m : TroopMatch) :
    ∀ (L : List (ℕ × ℕ)), L.Nodup → k ∈ L →
      (L.map fun c => ((Function.update f k (f k ++ [m])) c).length).sum
        = (L.map fun c => (f c).length).sum + 1 := by
  intro L
  induction L with
  | nil => intro _ hk; simp at hk
  | cons c rest ih =>
    intro hnd hk
    rw [List.map_cons, List.map_cons, List.sum_cons, List.sum_cons]
    by_cases hck : c = k
    · have hupc : (Function.update f k (f k ++ [m])) c = f k ++ [m] := by
        rw [hck, Function.update_same]
      have hnotin : k ∉ rest := by
        rw [← hck]
        exact (List.nodup_cons.mp hnd).1
      have hrest : (rest.map fun c2 => ((Function.update f k (f k ++ [m])) c2).length)
          = rest.map fun c2 => (f c2).length := by
        apply List.map_congr_left
        intro c2 hc2
        exact congrArg List.length
          (Function.update_noteq (fun he => hnotin (by rw [← he]; exact hc2)) _ _)
      rw [hupc, hrest, hck, List.length_append]
      simp only [List.length_singleton]
      omega
    · have hk2 : k ∈ rest := by
        rcases List.mem_cons.mp hk with he | hm
        · exact absurd he.symm hck
        · exact hm
      have hih := ih (List.nodup_cons.mp hnd).2 hk2
      rw [Function.update_noteq hck, hih]
      omega

lemma add_troop_fst_troops (b : HexagonalBoardState) (m : TroopMatch) :
    (b.add_troop_to_hexagon m).1.hexagon_troops
      = match b.find_closest_hexagon (m.centerX : ℚ) (m.centerY : ℚ) with
        | some hex => Function.update b.hexagon_troops hex (b.hexagon_troops hex ++ [m])
        | none => b.hexagon_troops := by
  unfold HexagonalBoardState.add_troop_to_hexagon
  rcases b.find_closest_hexagon (m.centerX : ℚ) (m.centerY : ℚ) with _ | hex
  · rfl
  · rfl

lemma add_troop_preserves_closest (b : HexagonalBoardState) (m : TroopMatch) :
    (b.add_troop_to_hexagon m).1.find_closest_hexagon = b.find_closest_hexagon := by
  unfold HexagonalBoardState.add_troop_to_hexagon
  rcases b.find_closest_hexagon (m.centerX : ℚ) (m.centerY : ℚ) with _ | hex
  · rfl
  · rfl

lemma gridCells_nodup : gridCells.Nodup := by decide

lemma assign_conservation :
    ∀ (dets : List TroopMatch) (b : HexagonalBoardState),
      (∀ (x y : ℚ) (c : ℕ × ℕ), b.find_closest_hexagon x y = some c → c ∈ gridCells) →
      boardTroopTotal (assign_detections b dets) + unassignedCount b dets
        = boardTroopTotal b + dets.length := by
  intro dets
  induction dets with
  | nil =>
    intro b _
    simp [assign_detections, unassignedCount]
  | cons m rest ih =>
    intro b hmem
    have hstep : assign_detections b (m :: rest)
        = assign_detections (b.add_troop_to_hexagon m).1 rest := by
      unfold assign_detections
      rw [List.foldl_cons]
    have hcount : unassignedCount b (m :: rest)
        = unassignedCount b rest + (if (b.find_closest_hexagon
            (m.centerX : ℚ) (m.centerY : ℚ)).isNone then 1 else 0) := by
      unfold unassignedCount
      rw [List.countP_cons]
    rcases hc : b.find_closest_hexagon (m.centerX : ℚ) (m.centerY : ℚ) with _ | hex
    · have hsame : (b.add_troop_to_hexagon m).1 = b := by
        unfold HexagonalBoardState.add_troop_to_hexagon
        rw [hc]
      rw [hstep, hsame, hcount, hc]
      have hih := ih b hmem
      have hif : (if (none : Option (ℕ × ℕ)).isNone = true then 1 else 0) = 1 := rfl
      rw [hif, List.length_cons]
      omega
    · have htot : boardTroopTotal (b.add_troop_to_hexagon m).1 = boardTroopTotal b + 1 := by
        unfold boardTroopTotal
        rw [add_troop_fst_troops, hc]
        exact sum_length_update b.hexagon_troops hex m gridCells gridCells_nodup
          (hmem _ _ _ hc)
      have hclo := add_troop_preserves_closest b m
      have hcnt2 : unassignedCount (b.add_troop_to_hexagon m).1 rest
          = unassignedCount b rest := by
        unfold unassignedCount
        rw [hclo]
      have hih := ih (b.add_troop_to_hexagon m).1 (by rw [hclo]; exact hmem)
      rw [hstep, hcount, hc]
      rw [hcnt2, htot] at hih
      have hif : (if (some hex).isNone = true then 1 else 0) = 0 := rfl
      rw [hif, List.length_cons]
      omega

lemma assign_troops_subset :
    ∀ (dets : List TroopMatch) (b : HexagonalBoardState) (cell : ℕ × ℕ)
      (m : TroopMatch),
      m ∈ (assign_detections b dets).hexagon_troops cell →
      m ∈ b.hexagon_troops cell ∨ m ∈ dets := by
  intro dets
  induction dets with
  | nil => intro b cell m hm; exact Or.inl hm
  | cons d rest ih =>
    intro b cell m hm
    have hstep : assign_detections b (d :: rest)
        = assign_detections (b.add_troop_to_hexagon d).1 rest := by
      unfold assign_detections
      rw [List.foldl_cons]
    rw [hstep] at hm
    rcases ih _ _ _ hm with hin | hin
    · rw [add_troop_fst_troops] at hin
      rcases hc : b.find_closest_hexagon (d.centerX : ℚ) (d.centerY : ℚ) with _ | hex
      · rw [hc] at hin
        exact Or.inl hin
      · rw [hc] at hin
        simp only [] at hin
        by_cases hcell : cell = hex
        · subst hcell
          rw [Function.update_same] at hin
          rcases List.mem_append.mp hin with h2 | h2
          · exact Or.inl h2
          · rw [List.mem_singleton.mp h2]
            exact Or.inr (List.mem_cons_self d rest)
        · rw [Function.update_noteq hcell] at hin
          exact Or.inl hin
    · exact Or.inr (List.mem_cons_of_mem d hin)

/-! ### Claim theorems: board mapper -/

/-- Claim C4: `find_closest_hexagon` assigns a point to the grid cell
whose center minimizes the Euclidean distance, provided that minimum is
within 1.5× the larger of the per-column width and per-row height,
and otherwise returns no cell; among equidistant minimum cells the
lexicographically first `(row, col)` wins, because the centers dict is
iterated in ascending row-major order (second conjunct). -/
theorem claim4_board_mapper_assignment (lft tp w h : ℤ) (x y : ℚ) :
    (HexagonalBoardState.init lft tp w h).find_closest_hexagon x y
        = specAssignCell w h x y ∧
      ((HexagonalBoardState.init lft tp w h).hexagon_centers.map Prod.fst).Pairwise
        cellLexLt := by
  constructor
  · unfold HexagonalBoardState.find_closest_hexagon specAssignCell
    simp only [HexagonalBoardState.init, centers_eq]
    have hb := closest_vs_spec w h x y hexCenterTable (fun hc => List.noConfusion hc)
    rcases hcl : closestLoop x y hexCenterTable with _ | ⟨hx, msq⟩
    · rw [hcl] at hb
      exact hb
    · rw [hcl] at hb
      exact hb
  · show (hexCenterTable.map Prod.fst).Pairwise cellLexLt
    decide

/-- Claim C6: one cycle's board assignment conserves matches — the sum of
per-cell assigned counts over the 40 cells plus the number of detections
whose center is beyond the acceptance radius equals the number of
detections processed (each detection goes to exactly one cell or to none). -/
theorem claim6_assignment_conserves_matches (lft tp w h : ℤ) (dets : List TroopMatch) :
    boardTroopTotal
        (assign_detections (HexagonalBoardState.init lft tp w h).clear_board dets)
      + unassignedCount (HexagonalBoardState.init lft tp w h) dets
      = dets.length := by
  have hclear : (HexagonalBoardState.init lft tp w h).clear_board
      = HexagonalBoardState.init lft tp w h := rfl
  rw [hclear]
  have h0 : boardTroopTotal (HexagonalBoardState.init lft tp w h) = 0 := by
    unfold boardTroopTotal
    simp [HexagonalBoardState.init]
  have := assign_conservation dets (HexagonalBoardState.init lft tp w h)
    (fun _ _ _ hc => find_closest_init_mem hc)
  omega

/-- Claim C7 (amended): in a cycle that reaches the assignment phase
(the icon directory exists and holds at least one file), the board is
cleared before assignment — the outcome is independent of the previous
board contents — and afterwards every troop on the board is one of that
cycle's detections.  Cycles that return early (missing directory, empty
directory) skip the clear and leave the previous board state in place
(see the counterexample). -/
theorem claim7_board_cleared_each_cycle (iconFiles : List IconFile)
    (cache : List (String × List (ℚ × ℕ × ℕ))) (L T R B : ℤ) (thr : ℚ)
    (surfOf : String → ℚ → ℕ → ℕ → ℚ) (prev : HexagonalBoardState)
    (hne : iconFiles ≠ []) :
    process_board_screenshot (some iconFiles) cache L T R B thr surfOf prev
        = process_board_screenshot (some iconFiles) cache L T R B thr surfOf
          prev.clear_board ∧
      ∀ (cell : ℕ × ℕ) (m : TroopMatch),
        m ∈ (process_board_screenshot (some iconFiles) cache L T R B thr surfOf
          prev).2.hexagon_troops cell →
        m ∈ (process_board_screenshot (some iconFiles) cache L T R B thr surfOf
          prev).1 := by
  obtain ⟨f0, fs, rfl⟩ : ∃ f0 fs, iconFiles = f0 :: fs := by
    cases iconFiles with
    | nil => exact absurd rfl hne
    | cons a b => exact ⟨a, b, rfl⟩
  constructor
  · rfl
  · intro cell m hm
    have hsub := assign_troops_subset _ prev.clear_board cell m hm
    rcases hsub with h | h
    · exact absurd h (List.not_mem_nil m)
    · exact h

/-- Claim C7 counterexample: when the icon directory is missing, the cycle
returns before `clear_board` is ever called, so the board still holds a
match from a previous cycle even though the cycle produced zero matches. -/
theorem claim7_counterexample :
    (process_board_screenshot none [] 0 0 0 0 (1/2) (fun _ _ _ _ => 0) staleBoard).1
        = [] ∧
      staleTroop ∈ (process_board_screenshot none [] 0 0 0 0 (1/2)
        (fun _ _ _ _ => 0) staleBoard).2.hexagon_troops (0, 0) := by
  constructor
  · rfl
  · show staleTroop ∈ staleBoard.hexagon_troops (0, 0)
    simp [staleBoard]

/-- Witness for C7 at a concrete one-file directory and board. -/
theorem claim7_witness :
    process_board_screenshot (some [⟨"a", none⟩]) [] 0 0 0 0 (1/2)
        (fun _ _ _ _ => 0) (HexagonalBoardState.init 0 0 0 0)
      = process_board_screenshot (some [⟨"a", none⟩]) [] 0 0 0 0 (1/2)
        (fun _ _ _ _ => 0) (HexagonalBoardState.init 0 0 0 0).clear_board :=
  (claim7_board_cleared_each_cycle [⟨"a", none⟩] [] 0 0 0 0 (1/2)
    (fun _ _ _ _ => 0) (HexagonalBoardState.init 0 0 0 0)
    (fun hc => List.noConfusion hc)).1

/-- Claim C9: a missing template directory leaves the cache empty and the
cycle returns zero detections; an existing directory with no files, or
with only unreadable files, likewise yields an empty cache and zero
detections.  All of these paths are ordinary returns of total functions —
no failure is modelled or needed. -/
theorem claim9_missing_template_directory :
    (preprocess_all_templates none = [] ∧
      ∀ (cache : List (String × List (ℚ × ℕ × ℕ))) (L T R B : ℤ) (thr : ℚ)
        (surfOf : String → ℚ → ℕ → ℕ → ℚ) (board : HexagonalBoardState),
        process_board_screenshot none cache L T R B thr surfOf board = ([], board)) ∧
    (∀ (cache : List (String × List (ℚ × ℕ × ℕ))) (L T R B : ℤ) (thr : ℚ)
        (surfOf : String → ℚ → ℕ → ℕ → ℚ) (board : HexagonalBoardState),
        process_board_screenshot (some []) cache L T R B thr surfOf board
          = ([], board)) ∧
    (∀ (files : List IconFile), (∀ f ∈ files, f.image = none) →
      preprocess_all_templates (some files) = [] ∧
      ∀ (L T R B : ℤ) (thr : ℚ) (surfOf : String → ℚ → ℕ → ℕ → ℚ)
        (board : HexagonalBoardState),
        (process_board_screenshot (some files) (preprocess_all_templates (some files))
          L T R B thr surfOf board).1 = []) := by
  refine ⟨⟨rfl, fun _ _ _ _ _ _ _ _ => rfl⟩, fun _ _ _ _ _ _ _ _ => rfl, ?_⟩
  intro files hunread
  have hcache : preprocess_all_templates (some files) = [] := by
    unfold preprocess_all_templates
    rw [List.filterMap_eq_nil]
    intro f hf
    rw [hunread f hf]
  refine ⟨hcache, ?_⟩
  intro L T R B thr surfOf board
  unfold process_board_screenshot
  simp only []
  by_cases hfe : files.isEmpty
  · rw [if_pos hfe]
  · rw [if_neg hfe]
    show files.bind (fun f =>
      find_field_matches (((preprocess_all_templates (some files)).find?
          fun e => e.1 = f.name).map (·.2))
        ((R - L).toNat) ((B - T).toNat) thr L T (surfOf f.name) f.name) = []
    rw [List.bind_eq_nil]
    intro f _
    rw [hcache]
    rfl

/-- Witness for C9 at a directory holding one unreadable file. -/
theorem claim9_witness :
    preprocess_all_templates (some [⟨"a", none⟩]) = [] ∧
      ∀ (L T R B : ℤ) (thr : ℚ) (surfOf : String → ℚ → ℕ → ℕ → ℚ)
        (board : HexagonalBoardState),
        (process_board_screenshot (some [⟨"a", none⟩])
          (preprocess_all_templates (some [⟨"a", none⟩]))
          L T R B thr surfOf board).1 = [] :=
  (claim9_missing_template_directory.2.2 [⟨"a", none⟩]
    (fun f hf => by rcases List.mem_singleton.mp hf with rfl; rfl))

/-- Claim C10: the 40 hexagon centers are a fixed table of absolute screen
coordinates — independent of the board rectangle passed to the
constructor — equal to the explicit calibration table (row Y positions
538–932, X origins 1136/1094 alternating, 82-pixel spacing); and cell
assignment depends on the rectangle only through its width and height
(the acceptance radius), not its position. -/
theorem claim10_centers_fixed :
    (∀ a b c d a2 b2 c2 d2 : ℤ,
      calculate_hexagon_centers a b c d = calculate_hexagon_centers a2 b2 c2 d2) ∧
    (∀ a b c d : ℤ, calculate_hexagon_centers a b c d = hexCenterTable) ∧
    (∀ (lft tp lft2 tp2 w h : ℤ) (x y : ℚ),
      (HexagonalBoardState.init lft tp w h).find_closest_hexagon x y
        = (HexagonalBoardState.init lft2 tp2 w h).find_closest_hexagon x y) :=
  ⟨fun _ _ _ _ _ _ _ _ => rfl, fun _ _ _ _ => rfl,
   fun _ _ _ _ _ _ _ _ => rfl⟩

/-! ### Claim theorems: overlap resolver -/

/-! ### Concrete evaluations backing the witnesses -/

lemma range_two : List.range 2 = [0, 1] := by decide

lemma range_three : List.range 3 = [0, 1, 2] := by decide

lemma range_five : List.range 5 = [0, 1, 2, 3, 4] := by decide

lemma range_eight : List.range 8 = [0, 1, 2, 3, 4, 5, 6, 7] := by decide

lemma range_fifteen : List.range 15
    = [0, 1, 2, 3, 4, 5, 6, 7, 8, 9, 10, 11, 12, 13, 14] := by decide

lemma eval_field_wide :
    find_field_matches (some [(1, 9, 9)]) 10 10 (1/2) 0 0 surfHit "k" = [wideMatch] := by
  norm_num [find_field_matches, fieldScales, List.find?, scanPositions, surfHit,
    remove_overlapping_detections, sortByConfidence, List.insertionSort,
    List.orderedInsert, greedyKeep, confGe, wideMatch, range_two,
    List.filterMap_cons, List.filterMap_nil]

lemma eval_field_demo :
    find_field_matches (some [(1, 10, 10)]) 12 12 (1/2) 0 0 surfHit "k"
      = [fieldHitMatch] := by
  norm_num [find_field_matches, fieldScales, List.find?, scanPositions, surfHit,
    remove_overlapping_detections, sortByConfidence, List.insertionSort,
    List.orderedInsert, greedyKeep, confGe, fieldHitMatch, range_three,
    List.filterMap_cons, List.filterMap_nil]

set_option maxRecDepth 8000 in
lemma eval_optimized_demo :
    (find_matches_optimized [(3/10, 16, 16)] 20 20 (1/2) 0 0 surfOpt).1
      = [optHitMatch] := by
  norm_num [find_matches_optimized, optimizedRawMatches, liveScales, List.find?,
    scanPositions, surfOpt, listMax, remove_overlapping_matches, sortByConfidence,
    List.insertionSort, List.orderedInsert, greedyKeep, confGe, optHitMatch,
    range_fifteen, pyMaxByConf, List.filterMap_cons, List.filterMap_nil]

lemma pyInt_v0 : pyInt 0 = 0 := by norm_num [pyInt]

lemma pyInt_v14 : pyInt 14 = 14 := by norm_num [pyInt] <;> decide

lemma pyInt_v17 : pyInt 17 = 17 := by norm_num [pyInt] <;> decide

lemma pyInt_v20 : pyInt 20 = 20 := by norm_num [pyInt] <;> decide

lemma pyInt_v23 : pyInt 23 = 23 := by norm_num [pyInt] <;> decide

lemma pyInt_v26 : pyInt 26 = 26 := by norm_num [pyInt] <;> decide

lemma pyInt_v29 : pyInt 29 = 29 := by norm_num [pyInt] <;> decide

lemma pyInt_v32 : pyInt 32 = 32 := by norm_num [pyInt] <;> decide

lemma pyInt_v35 : pyInt 35 = 35 := by norm_num [pyInt] <;> decide

set_option maxRecDepth 8000 in
set_option maxHeartbeats 3000000 in
lemma eval_multiscale_demo :
    (find_matches_multiscale (1/2) 1 18 18 35 35 (2/5, 2/5) surfHit).1
      = [multiHitMatch] := by
  norm_num [find_matches_multiscale, search_region_height, get_adaptive_scale_range,
    npUnique, linspace, range_fifteen, range_eight, List.insertionSort,
    List.orderedInsert, List.dedup_cons_of_mem, List.dedup_cons_of_not_mem,
    multiscale_loop, multiscaleCollect, listMax, scanPositions, surfHit,
    remove_overlapping_matches, sortByConfidence, greedyKeep, confGe,
    multiHitMatch, pyMaxByConf, List.filterMap_cons, List.filterMap_nil,
    pyInt_v0, pyInt_v14, pyInt_v17, pyInt_v20, pyInt_v23, pyInt_v26,
    pyInt_v29, pyInt_v32, pyInt_v35, range_five]

/-- Claim C1: every match returned by `find_field_matches` and by
`find_matches_multiscale` has confidence at or above the configured
threshold — raw candidates are collected from score-surface positions
with `result >= threshold`, and suppression only removes matches. -/
theorem claim1_matcher_confidence_threshold :
    (∀ (tmpl : Option (List (ℚ × ℕ × ℕ))) (W H : ℕ) (thr : ℚ) (offX offY : ℤ)
        (surf : ℚ → ℕ → ℕ → ℚ) (name : String) (m : TroopMatch),
        m ∈ find_field_matches tmpl W H thr offX offY surf name →
        thr ≤ m.confidence) ∧
    (∀ (thr frac : ℚ) (W H tw th : ℕ) (sr : ℚ × ℚ) (surf : ℚ → ℕ → ℕ → ℚ)
        (m : TroopMatch),
        m ∈ (find_matches_multiscale thr frac W H tw th sr surf).1 →
        thr ≤ m.confidence) :=
  ⟨fun _ _ _ _ _ _ _ _ _ hm => (find_field_matches_spec hm).1,
   fun _ _ _ _ _ _ _ _ _ hm => (find_matches_multiscale_spec hm).1⟩

/-- Claim C5 (amended): `find_matches_multiscale` and
`find_matches_optimized` exclude every scale whose scaled width or height
exceeds 80 % of the search region, so no output match can carry such a
scale; `find_field_matches` uses a 90 % cutoff instead, so a scale between
80 % and 90 % of the region CAN produce matches there (see the
counterexample). -/
theorem claim5_oversized_scales_excluded :
    (∀ (thr frac : ℚ) (W H tw th : ℕ) (sr : ℚ × ℚ) (surf : ℚ → ℕ → ℕ → ℚ)
        (m : TroopMatch),
        m ∈ (find_matches_multiscale thr frac W H tw th sr surf).1 →
        (m.width : ℚ) ≤ (W : ℚ) * (4/5) ∧
          (m.height : ℚ) ≤ ((search_region_height H frac : ℕ) : ℚ) * (4/5)) ∧
    (∀ (tmpl : List (ℚ × ℕ × ℕ)) (W H : ℕ) (thr : ℚ) (offX offY : ℤ)
        (surf : ℚ → ℕ → ℕ → ℚ) (m : TroopMatch),
        m ∈ (find_matches_optimized tmpl W H thr offX offY surf).1 →
        (m.width : ℚ) ≤ (W : ℚ) * (4/5) ∧ (m.height : ℚ) ≤ (H : ℚ) * (4/5)) ∧
    (∀ (tmpl : Option (List (ℚ × ℕ × ℕ))) (W H : ℕ) (thr : ℚ) (offX offY : ℤ)
        (surf : ℚ → ℕ → ℕ → ℚ) (name : String) (m : TroopMatch),
        m ∈ find_field_matches tmpl W H thr offX offY surf name →
        (m.width : ℚ) ≤ (W : ℚ) * (9/10) ∧ (m.height : ℚ) ≤ (H : ℚ) * (9/10)) :=
  ⟨fun _ _ _ _ _ _ _ _ _ hm => (find_matches_multiscale_spec hm).2,
   fun _ _ _ _ _ _ _ _ hm => (find_matches_optimized_spec hm).2,
   fun _ _ _ _ _ _ _ _ _ hm => (find_field_matches_spec hm).2⟩

/-- Witness for C1: on concrete regions and perfect-hit score surfaces,
both matchers return one match and its confidence is above the 0.5
threshold. -/
theorem claim1_witness :
    (1/2 : ℚ) ≤ fieldHitMatch.confidence ∧ (1/2 : ℚ) ≤ multiHitMatch.confidence :=
  ⟨claim1_matcher_confidence_threshold.1 (some [(1, 10, 10)]) 12 12 (1/2) 0 0
      surfHit "k" fieldHitMatch
      (by rw [eval_field_demo]; exact List.mem_singleton_self _),
   claim1_matcher_confidence_threshold.2 (1/2) 1 18 18 35 35 (2/5, 2/5) surfHit
      multiHitMatch
      (by rw [eval_multiscale_demo]; exact List.mem_singleton_self _)⟩

/-- Claim C5 counterexample: in `find_field_matches` a 9×9 scale variant
on a 10×10 region — wider than 80 % of the region — still produces a
match, because the field matcher's cutoff is 90 %, not 80 %. -/
theorem claim5_counterexample :
    find_field_matches (some [(1, 9, 9)]) 10 10 (1/2) 0 0 surfHit "k" = [wideMatch] ∧
      (wideMatch.width : ℚ) > (10 : ℚ) * (4/5) :=
  ⟨eval_field_wide, by norm_num [wideMatch]⟩

/-- Witness for C5 at the three concrete matcher runs. -/
theorem claim5_witness :
    ((multiHitMatch.width : ℚ) ≤ (18 : ℚ) * (4/5) ∧
      (multiHitMatch.height : ℚ) ≤ ((search_region_height 18 1 : ℕ) : ℚ) * (4/5)) ∧
    ((optHitMatch.width : ℚ) ≤ (20 : ℚ) * (4/5) ∧
      (optHitMatch.height : ℚ) ≤ (20 : ℚ) * (4/5)) ∧
    ((fieldHitMatch.width : ℚ) ≤ (12 : ℚ) * (9/10) ∧
      (fieldHitMatch.height : ℚ) ≤ (12 : ℚ) * (9/10)) :=
  ⟨claim5_oversized_scales_excluded.1 (1/2) 1 18 18 35 35 (2/5, 2/5) surfHit
      multiHitMatch (by rw [eval_multiscale_demo]; exact List.mem_singleton_self _),
   claim5_oversized_scales_excluded.2.1 [(3/10, 16, 16)] 20 20 (1/2) 0 0 surfOpt
      optHitMatch (by rw [eval_optimized_demo]; exact List.mem_singleton_self _),
   claim5_oversized_scales_excluded.2.2 (some [(1, 10, 10)]) 12 12 (1/2) 0 0
      surfHit "k" fieldHitMatch
      (by rw [eval_field_demo]; exact List.mem_singleton_self _)⟩

/-- Claim C3: both overlap resolvers are idempotent — applying
`_remove_overlapping_matches` (resp. `remove_overlapping_detections`) to
its own output, at the same threshold, returns it unchanged. -/
theorem claim3_suppression_idempotent (thrG thrF : ℚ) (l1 l2 : List TroopMatch) :
    remove_overlapping_matches thrG (remove_overlapping_matches thrG l1)
        = remove_overlapping_matches thrG l1 ∧
      remove_overlapping_detections thrF (remove_overlapping_detections thrF l2)
        = remove_overlapping_detections thrF l2 :=
  ⟨greedyKeep_sort_idem (overlapsGame thrG) l1,
   greedyKeep_sort_idem (overlapsField thrF) l2⟩

/-- Claim C2 (amended): for every pair of matches surviving
`_remove_overlapping_matches` the ratio of intersection area to the
SMALLER of the two box areas is ≤ the threshold (the earlier-accepted
match listed first; the ratio is symmetric).  For
`remove_overlapping_detections` the guarantee is weaker: the ratio of
intersection area to the LATER-ACCEPTED match's own area is ≤ the
threshold; the smaller-area bound can fail (see the counterexample). -/
theorem claim2_surviving_overlap_bounds (thr : ℚ) (l : List TroopMatch) :
    (remove_overlapping_matches thr l).Pairwise
        (fun a b => interArea a b ≠ 0 →
          ((interArea a b : ℤ) : ℚ) / ((min (boxArea a) (boxArea b) : ℕ) : ℚ) ≤ thr) ∧
      (remove_overlapping_detections thr l).Pairwise
        (fun a b => interArea a b ≠ 0 →
          ((interArea a b : ℤ) : ℚ) / ((boxArea b : ℕ) : ℚ) ≤ thr) := by
  constructor
  · have hpw := greedyKeep_pairwise (overlapsGame thr) (sortByConfidence l) []
      List.Pairwise.nil
    refine hpw.imp ?_
    intro a b hov hne
    have hne2 : interArea b a ≠ 0 := by rwa [interArea_comm] at hne
    have := overlapsGame_false_ratio hov hne2
    rwa [interArea_comm b a, min_comm (boxArea b) (boxArea a)] at this
  · have hpw := greedyKeep_pairwise (overlapsField thr) (sortByConfidence l) []
      List.Pairwise.nil
    refine hpw.imp ?_
    intro a b hov hne
    have hne2 : interArea b a ≠ 0 := by rwa [interArea_comm] at hne
    have := overlapsField_false_ratio hov hne2
    rwa [interArea_comm b a] at this

/-- Witness for C2 on a concrete surviving pair. -/
theorem claim2_witness :
    (remove_overlapping_matches (1/2) [boxHi, boxBigLo]).Pairwise
        (fun a b => interArea a b ≠ 0 →
          ((interArea a b : ℤ) : ℚ) / ((min (boxArea a) (boxArea b) : ℕ) : ℚ) ≤ 1/2) ∧
      (remove_overlapping_detections (1/2) [boxHi, boxBigLo]).Pairwise
        (fun a b => interArea a b ≠ 0 →
          ((interArea a b : ℤ) : ℚ) / ((boxArea b : ℕ) : ℚ) ≤ 1/2) :=
  claim2_surviving_overlap_bounds (1/2) [boxHi, boxBigLo]

/-- Claim C2 counterexample: in `remove_overlapping_detections` at its
configured threshold 0.5, a large low-confidence box fully covering an
already-accepted small box survives — its candidate-area ratio is 100/900,
yet intersection / smaller-area = 100/100 = 1 > 0.5.  So not every
surviving pair satisfies the smaller-area bound. -/
theorem claim2_counterexample :
    remove_overlapping_detections (1/2) [boxHi, boxBigLo] = [boxHi, boxBigLo] ∧
      ¬ (((interArea boxHi boxBigLo : ℤ) : ℚ)
          / ((min (boxArea boxHi) (boxArea boxBigLo) : ℕ) : ℚ) ≤ 1/2) := by
  constructor
  · norm_num [remove_overlapping_detections, sortByConfidence, List.insertionSort,
      List.orderedInsert, confGe, greedyKeep, overlapsField, boxHi, boxBigLo, boxArea]
  · norm_num [interArea, boxArea, boxHi, boxBigLo]

/-- Claim C8: two raw matches for the same template with mutual overlap
above 0.5 of each box's area and confidences 0.90 and 0.75: both
suppression routines (at their configured thresholds 0.2 and 0.5) keep
exactly the 0.90-confidence match, and so does the per-template
best-match reduction of `find_matches_multiscale` applied afterwards. -/
theorem claim8_mutual_overlap_pair (a b : TroopMatch)
    (hca : a.confidence = 9/10) (hcb : b.confidence = 3/4)
    (hova : ((boxArea a : ℕ) : ℚ) < 2 * ((interArea a b : ℤ) : ℚ))
    (hovb : ((boxArea b : ℕ) : ℚ) < 2 * ((interArea a b : ℤ) : ℚ)) :
    remove_overlapping_matches (1/5) [a, b] = [a] ∧
      remove_overlapping_detections (1/2) [a, b] = [a] := by
  have hsort : sortByConfidence [a, b] = [a, b] := by
    simp only [sortByConfidence, List.insertionSort, List.orderedInsert]
    rw [if_pos]
    show confGe a b
    unfold confGe
    rw [hca, hcb]
    norm_num
  have hova2 : ((boxArea b : ℕ) : ℚ) < 2 * ((interArea b a : ℤ) : ℚ) := by
    rwa [interArea_comm b a]
  have hovb2 : ((boxArea a : ℕ) : ℚ) < 2 * ((interArea b a : ℤ) : ℚ) := by
    rwa [interArea_comm b a]
  constructor
  · have hov : overlapsGame (1/5) b a = true := overlapsGame_true_of_mutual hova2 hovb2
    unfold remove_overlapping_matches
    rw [hsort]
    exact greedyKeep_pair _ a b hov
  · have hov : overlapsField (1/2) b a = true := overlapsField_true_of_mutual hova2
    unfold remove_overlapping_detections
    rw [hsort]
    exact greedyKeep_pair _ a b hov

/-- Witness for C8 at two concrete 10×10 boxes one pixel apart
(intersection 81, mutual overlap 0.81 of each area). -/
theorem claim8_witness :
    remove_overlapping_matches (1/5) [boxHi, boxNearLo] = [boxHi] ∧
      remove_overlapping_detections (1/2) [boxHi, boxNearLo] = [boxHi] :=
  claim8_mutual_overlap_pair boxHi boxNearLo rfl rfl
    (by norm_num [boxArea, interArea, boxHi, boxNearLo])
    (by norm_num [boxArea, interArea, boxHi, boxNearLo])

end SpencersMergeBot
